import Mathlib

/-!
Verification of the time/keypad core of the Time-Circuits-Display firmware
(files `tc_time.cpp`, `tc_keypad.cpp`).

The development shallowly embeds the date codec (`dateToMins` / `minsToDate`),
the leap-year predicate, the keypad command interpreter's commit processing,
the short-form time-travel commit, the year-rollover handler and the
auto-rotation pause logic.  Machine integers are modelled as `Nat`/`Int`;
the one place where a 64-bit value is truncated to 32 bits in the source
(`total32 = total64` in `minsToDate`) is modelled by an explicit `% 2^32`.

Members of the `clockDisplay` class (field accessors/mutators of the three
clock values) are not part of the analysed sources; where needed they are
modelled from the specification and marked `Modelled from the spec:`.
-/

namespace TC

/-- The `monthDays` table of `tc_time.cpp`: days per month, index 0..11. -/
def monthDays : ℕ → ℕ
  | 0 => 31 | 1 => 28 | 2 => 31 | 3 => 30 | 4 => 31 | 5 => 30
  | 6 => 31 | 7 => 31 | 8 => 30 | 9 => 31 | 10 => 30 | 11 => 31
  | _ => 0

/-- Row 0 of the `mon_yday` table: cumulative day-of-year at the start of each
month for a non-leap year (index 0..12). -/
def monYdayN : ℕ → ℕ
  | 0 => 0 | 1 => 31 | 2 => 59 | 3 => 90 | 4 => 120 | 5 => 151 | 6 => 181
  | 7 => 212 | 8 => 243 | 9 => 273 | 10 => 304 | 11 => 334 | 12 => 365
  | _ => 0

/-- Row 1 of the `mon_yday` table: cumulative day-of-year for a leap year. -/
def monYdayL : ℕ → ℕ
  | 0 => 0 | 1 => 31 | 2 => 60 | 3 => 91 | 4 => 121 | 5 => 152 | 6 => 182
  | 7 => 213 | 8 => 244 | 9 => 274 | 10 => 305 | 11 => 335 | 12 => 366
  | _ => 0

/-- The two-row `mon_yday` table, first index selecting the leap row. -/
def monYday (li idx : ℕ) : ℕ := if li = 1 then monYdayL idx else monYdayN idx

/-- The `mins1kYears` table of `tc_time.cpp`: minutes from 1/1/1 0:00 up to
each 1000-year boundary, index 0..9. -/
def mins1kYears : ℕ → ℕ
  | 0 => 0 | 1 => 525074400 | 2 => 1050674400 | 3 => 1576274400
  | 4 => 2101874400 | 5 => 2627474400 | 6 => 3153074400 | 7 => 3678674400
  | 8 => 4204274400 | 9 => 4729874400
  | _ => 0

/-- The `hours1kYears` table of `tc_time.cpp`: the same boundaries in hours
(the source spells each entry as `.../60`). -/
def hours1kYears : ℕ → ℕ
  | 0 => 0 | 1 => 525074400/60 | 2 => 1050674400/60 | 3 => 1576274400/60
  | 4 => 2101874400/60 | 5 => 2627474400/60 | 6 => 3153074400/60
  | 7 => 3678674400/60 | 8 => 4204274400/60 | 9 => 4729874400/60
  | _ => 0

/-- `isLeapYear` of `tc_time.cpp`, translated with C operator precedence:
`year & 3 == 0` parses as `year & (3 == 0)`; the boolean comparison converts
to the integer 0 or 1 and is then the right operand of the bitwise AND, so
the outer condition tests `(year & 0) != 0`. -/
def isLeapYear (year : ℕ) : Bool :=
  if year &&& (if (3 = 0 : Prop) then 1 else 0) ≠ 0 then
    if year % 100 = 0 then
      if year % 400 = 0 then true else false
    else true
  else false

/-- The Gregorian leap-year rule as worded by the specification (divisible
by 4, and not by 100 unless also by 400); stated for comparison with the
source's `isLeapYear`. -/
def gregorianLeapYear (year : ℕ) : Bool :=
  year % 4 = 0 && (year % 100 ≠ 0 || year % 400 = 0)

/-- `daysInMonth` of `tc_time.cpp`. -/
def daysInMonth (month year : ℕ) : ℕ :=
  if month = 2 ∧ isLeapYear year then 29 else monthDays (month - 1)

/-- The `while(c-- > d)` loop of `dateToMins`: hours contributed by the whole
years `d, d+1, ..., c-1`. -/
def yearHoursSum (c d : ℕ) : ℕ :=
  if _h : d < c then
    (if isLeapYear (c - 1) then 8760 + 24 else 8760) + yearHoursSum (c - 1) d
  else 0
termination_by c
decreasing_by omega

/-- `dateToMins` of `tc_time.cpp`: convert a date into minutes since
1/1/1 0:00.  Faithful for every input on which the C version has defined
behaviour (in particular `year ≤ 9999`, `day ≥ 1`); the table lookup out of
bounds (UB in C) is modelled as 0, and the `int`/`uint32` arithmetic never
overflows on those inputs. -/
def dateToMins (year month day hour minute : ℕ) : ℕ :=
  let t0 := hours1kYears (year / 1000)
  let d := if t0 ≠ 0 then (year / 1000) * 1000 else 1
  let total32 := t0 + yearHoursSum year d
  let total32 := total32 + monYday (if isLeapYear year then 1 else 0) (month - 1) * 24
  let total32 := total32 + (day - 1) * 24
  let total32 := total32 + hour
  total32 * 60 + minute

/-- The block-table scan of `minsToDate` (`while(d >= 0) { if(total64 >
mins1kYears[d]) break; d--; }`): returns the first index `d, d-1, ..., 0`
whose table entry is exceeded, or `none` when the loop runs d below 0. -/
def blockScan (total64 : ℕ) (d : ℕ) : Option ℕ :=
  if total64 > mins1kYears d then some d
  else match d with
    | 0 => none
    | dd + 1 => blockScan total64 dd

/-- The `while(1)` year loop of `minsToDate`; arguments are the running
`(c, year, total32)`, the result their values at the `break` (the source
increments `c` also in the breaking iteration). -/
def yearLoop (c year t : ℕ) : ℕ × ℕ × ℕ :=
  let temp := if isLeapYear c then (8760 + 24) * 60 else 8760 * 60
  if h : t < temp then (c + 1, year, t)
  else yearLoop (c + 1) (year + 1) (t - temp)
termination_by t
decreasing_by
  show t - temp < t
  have h1 : 0 < temp := by
    show 0 < if _h : isLeapYear c = true then (8760 + 24) * 60 else 8760 * 60
    split <;> omega
  omega

/-- The month loop of `minsToDate` (`while(c < 12) { if(total32 <
mon_yday[temp][c]*24*60) break; c++; }`). -/
def monthScan (li rem c : ℕ) : ℕ :=
  if c < 12 then
    if rem < monYday li c * (24 * 60) then c else monthScan li rem (c + 1)
  else c
termination_by 12 - c

/-- The net effect of the block scan of `minsToDate` on `(year, total64)`:
`if(d > 0) { total64 -= mins1kYears[d]; c = year = d * 1000; }` after the
scan, with `year` staying at its initialisation 1 otherwise. -/
def blockPair (total64 : ℕ) : ℕ × ℕ :=
  match blockScan total64 9 with
  | some d => if d > 0 then (d * 1000, total64 - mins1kYears d) else (1, total64)
  | none => (1, total64)

/-- `minsToDate` of `tc_time.cpp`: convert minutes since 1/1/1 0:00 into a
date `(year, month, day, hour, minute)`.  The source's assignment of the
64-bit remainder into `uint32_t total32` is the explicit `% 2^32`. -/
def minsToDate (total64 : ℕ) : ℕ × ℕ × ℕ × ℕ × ℕ :=
  let yc : ℕ × ℕ := blockPair total64
  let total32 := yc.2 % 2 ^ 32
  -- the source keeps `c` and `year` in lockstep (`c = year = d*1000`, both 1 otherwise)
  let r := yearLoop yc.1 yc.1 total32
  let year := r.2.1
  let total32 := r.2.2
  let li := if isLeapYear year then 1 else 0
  let month := monthScan li total32 1
  let total32 := total32 - monYday li (month - 1) * (24 * 60)
  let temp := total32 / (24 * 60)
  let day := temp + 1
  let total32 := total32 - temp * (24 * 60)
  let temp := total32 / 60
  let hour := temp
  let minute := total32 - temp * 60
  (year, month, day, hour, minute)

/-! ### Clock values

The three clock values (`presentTime`, `destinationTime`, `departedTime`)
are instances of the `clockDisplay` class, whose implementation is not among
the analysed source files; the data model and the accessors/mutators used by
`tc_time.cpp` / `tc_keypad.cpp` are modelled from the specification. -/

/-- Modelled from the spec: the calendar fields of a clock value plus its
virtual year offset (`{ year, month: 1-12, day, hour: 0-23, minute: 0-59,
yearOffset: signed }`); presentation-only fields (colon, brightness, night
mode) are omitted as no analysed code path observed here reads them. -/
structure ClockValue where
  year : ℤ
  month : ℕ
  day : ℕ
  hour : ℕ
  minute : ℕ
  yearOffset : ℤ
deriving DecidableEq, Repr

/-- Modelled from the spec: `setYear` stores the value (the keypad comment
explicitly allows year 0, and years are already in range at every call). -/
def setYear (c : ClockValue) (v : ℤ) : ClockValue := { c with year := v }

/-- Modelled from the spec: `setMonth` clamps its argument to `[1, 12]`. -/
def setMonth (c : ClockValue) (v : ℕ) : ClockValue :=
  { c with month := if v < 1 then 1 else if v > 12 then 12 else v }

/-- Modelled from the spec: `setDay` clamps its argument to
`[1, days-in-month]` for the currently stored month and year. -/
def setDay (c : ClockValue) (v : ℕ) : ClockValue :=
  { c with day := if v < 1 then 1
                  else if v > daysInMonth c.month c.year.toNat then daysInMonth c.month c.year.toNat
                  else v }

/-- Modelled from the spec: `setHour` range-checks before acceptance
(`tc_keypad.cpp` line 1038: "Hour and min are checked in clockdisplay");
an out-of-range value leaves the field unchanged. -/
def setHour (c : ClockValue) (v : ℕ) : ClockValue :=
  if v ≤ 23 then { c with hour := v } else c

/-- Modelled from the spec: `setMinute` range-checks before acceptance;
an out-of-range value leaves the field unchanged. -/
def setMinute (c : ClockValue) (v : ℕ) : ClockValue :=
  if v ≤ 59 then { c with minute := v } else c

/-- Modelled from the spec: `setYearOffset` stores the signed offset. -/
def setYearOffset (c : ClockValue) (v : ℤ) : ClockValue := { c with yearOffset := v }

/-- Well-formedness of a clock value, the invariant stated in the spec's
data model: month, day, hour and minute in range, the day bounded by the
length of the month in the (effective) year. -/
def ClockValue.wf (c : ClockValue) : Prop :=
  1 ≤ c.month ∧ c.month ≤ 12 ∧ 1 ≤ c.day ∧
    c.day ≤ daysInMonth c.month ((c.year - c.yearOffset).toNat) ∧
    c.hour ≤ 23 ∧ c.minute ≤ 59

instance (c : ClockValue) : Decidable c.wf := by unfold ClockValue.wf; infer_instance

/-! ### The keypad date buffer (`tc_keypad.cpp`) -/

/-- `DATELEN_MAX` of `tc_keypad.cpp` (= `DATELEN_ALL`, the longest
recognized command shape; the backing array is `char[DATELEN_MAX + 2]`). -/
def DATELEN_MAX : ℕ := 12

/-- The pending-entry buffer: the characters of `dateBuffer` before its
terminating NUL (only digit keys ever reach `recordKey`, stored here as
their digit values), the write index `dateIndex`, and `lastKeyPressed`. -/
structure DateBuf where
  buf : List ℕ
  idx : ℕ
  lastKeyPressed : ℕ
deriving DecidableEq, Repr

/-- `recordKey` of `tc_keypad.cpp`: stores the key at `dateIndex`, writes the
terminating NUL one position further (modelled by truncating the character
list there), then advances `dateIndex`, clamping it to `DATELEN_MAX - 1`. -/
def recordKey (b : DateBuf) (key now : ℕ) : DateBuf :=
  let buf := b.buf.take b.idx ++ [key]
  let idx := b.idx + 1
  ⟨buf, if idx ≥ DATELEN_MAX then DATELEN_MAX - 1 else idx, now⟩

/-- Unsigned 32-bit subtraction, as computed by `millis() - t0` on
`unsigned long` values. -/
def usub32 (a b : ℕ) : ℕ := (a % 2 ^ 32 + (2 ^ 32 - b % 2 ^ 32)) % 2 ^ 32

/-- The inactivity discard at the top of `keypad_loop`: clear the buffer
after 2 minutes without a key press. -/
def idleClear (b : DateBuf) (now : ℕ) : DateBuf :=
  if usub32 now b.lastKeyPressed ≥ 2 * 60 * 1000 then { b with buf := [], idx := 0 } else b

/-- The buffer invariant maintained by `tc_keypad.cpp`: `dateIndex` tracks
the string length, clamped to `DATELEN_MAX - 1`, and the string never
exceeds `DATELEN_MAX` characters (so the NUL stays inside `char[14]`). -/
def DateBuf.wf (b : DateBuf) : Prop :=
  b.idx = min b.buf.length (DATELEN_MAX - 1) ∧ b.buf.length ≤ DATELEN_MAX

instance (b : DateBuf) : Decidable b.wf := by unfold DateBuf.wf; infer_instance

/-! ### The keypad commit processing (`keypad_loop`, enter pressed) -/

/-- `read2digs` of `tc_keypad.cpp` on the digit-value buffer. -/
def read2digs (buf : List ℕ) (idx : ℕ) : ℕ :=
  buf.getD idx 0 * 10 + buf.getD (idx + 1) 0

/-- Modelled from the spec: `getHrs1KYrs` (declared outside the analysed
files) hands out the "runtime-derived constant" the obfuscated date
signatures are XOR-compared against — entry `i` of the cumulative-hours
table, as its name and use indicate. -/
def getHrs1KYrs (i : ℕ) : ℕ := hours1kYears i

/-- The mutable state read or written by the commit processing of
`keypad_loop`, apart from the date buffer itself: the destination clock,
alarm, reminder, countdown timer, beep mode, the rc and wc mode flags, and the
configuration/music flags that gate some branches.  Display-only and
audio-only effects go to out-of-scope collaborators and are not part of the
state. -/
structure EntryState where
  dest : ClockValue
  alarmHour : ℕ
  alarmMinute : ℕ
  alarmOnOff : Bool
  remMonth : ℕ
  remDay : ℕ
  remHour : ℕ
  remMin : ℕ
  ctDown : ℕ
  beepMode : ℕ
  haveMusic : Bool
  haveRcMode : Bool
  haveWcMode : Bool
  wcHaveTZ1 : Bool
  mpActive : Bool
  rcMode : Bool
  wcMode : Bool
deriving DecidableEq, Repr

/-- Result of one commit processing step: the new state, the
`validEntry` / `invalidEntry` classification flags, and whether the
reserved 5-digit code called `esp_restart()` (which never returns). -/
structure EntryOutcome where
  st : EntryState
  validEntry : Bool
  invalidEntry : Bool
  restart : Bool
deriving DecidableEq, Repr

/-- The destination-time write-back of the date/time branch (`tc_keypad.cpp`
lines 1066-1070): each field is written only when its `int` sentinel is
non-negative (`> 0` for month and day). -/
def writeDest (c : ClockValue) (sYear sMonth sDay sHour sMin : ℤ) : ClockValue :=
  let c := if sYear ≥ 0 then setYear c sYear else c
  let c := if sMonth > 0 then setMonth c sMonth.toNat else c
  let c := if sDay > 0 then setDay c sDay.toNat else c
  let c := if sHour ≥ 0 then setHour c sHour.toNat else c
  if sMin ≥ 0 then setMinute c sMin.toNat else c

/-- The final `else` of the commit dispatch: 4-digit time, 8-digit date and
12-digit date+time entries (`tc_keypad.cpp` lines 970-1117). -/
def dateTimeEntry (buf : List ℕ) (s : EntryState) : EntryOutcome :=
  let strLen := buf.length
  let temp1 := read2digs buf 0
  let temp2 := read2digs buf 2
  if strLen = 4 then
    -- `_setHour = temp1; _setMin = temp2;` — no date part, no special codes
    ⟨{ s with dest := writeDest s.dest (-1) (-1) (-1) temp1 temp2,
              rcMode := false,
              wcMode := if s.wcMode ∧ s.wcHaveTZ1 then false else s.wcMode },
      true, false, false⟩
  else
    let sYear : ℤ := read2digs buf 4 * 100 + read2digs buf 6
    let sMonth : ℤ := if (temp1 : ℤ) < 1 then 1 else if (temp1 : ℤ) > 12 then 12 else temp1
    let sDay0 : ℤ := temp2
    let sDay : ℤ :=
      if sDay0 < 1 then 1
      else if sDay0 > daysInMonth sMonth.toNat sYear.toNat then daysInMonth sMonth.toNat sYear.toNat
      else sDay0
    let sHour : ℤ := if strLen = 12 then read2digs buf 8 else -1
    let sMin : ℤ := if strLen = 12 then read2digs buf 10 else -1
    let spTmp : ℕ := (sYear.toNat <<< 16) ||| (sMonth.toNat <<< 8) ||| sDay.toNat
    let special : ℕ :=
      if spTmp ^^^ getHrs1KYrs 7 = 70667637 then 1
      else if spTmp ^^^ getHrs1KYrs 8 = 59572453 then (if 9 ≤ sHour ∧ sHour ≤ 12 then 2 else 0)
      else if spTmp ^^^ getHrs1KYrs 6 = 97681642 then 3
      else if spTmp ^^^ getHrs1KYrs 8 = 65998071 then 4
      else 0
    -- special codes 2-4 play their own audio and set neither classification flag
    let valid := special = 1 ∨ special = 0
    ⟨{ s with dest := writeDest s.dest sYear sMonth sDay sHour sMin,
              rcMode := false,
              wcMode := if s.wcMode ∧ s.wcHaveTZ1 then false else s.wcMode },
      valid, false, false⟩

/-- The commit processing of `keypad_loop` (`isEnterKeyPressed` block,
`tc_keypad.cpp` lines 505-1133), dispatching on the buffer length exactly as
the source's `if`/`else if` chain does. -/
def processEntry (buf : List ℕ) (s : EntryState) : EntryOutcome :=
  let strLen := buf.length
  if strLen ≠ 12 ∧ strLen ≠ 10 ∧ strLen ≠ 8 ∧ (strLen < 2 ∨ strLen > 6) then
    ⟨s, false, true, false⟩
  else if strLen = 2 then
    let code := read2digs buf 0
    if code = 11 then ⟨s, true, false, false⟩
    else if code = 44 then ⟨s, true, false, false⟩
    else if code = 77 then ⟨s, true, false, false⟩
    else if (code = 88 ∨ code = 55) ∧ s.haveMusic then ⟨s, true, false, false⟩
    else ⟨s, false, true, false⟩
  else if strLen = 3 then
    let code0 := buf.getD 0 0 * 100 + buf.getD 1 0 * 10 + buf.getD 2 0
    let code := if code0 = 113 ∧ (¬s.haveRcMode ∨ ¬s.haveWcMode) then
                  (if s.haveRcMode then 111 else 112) else code0
    if code = 111 then
      if s.haveRcMode then ⟨{ s with rcMode := !s.rcMode }, true, false, false⟩
      else ⟨s, false, true, false⟩
    else if code = 112 then
      if s.haveWcMode then ⟨{ s with wcMode := !s.wcMode }, true, false, false⟩
      else ⟨s, false, true, false⟩
    else if code = 113 then
      ⟨{ s with rcMode := !s.rcMode, wcMode := !s.rcMode }, true, false, false⟩
    else if code = 222 ∨ code = 555 then
      if s.haveMusic then ⟨s, true, false, false⟩ else ⟨s, false, true, false⟩
    else if code = 888 then
      if s.haveMusic then ⟨s, true, false, false⟩ else ⟨s, false, true, false⟩
    else if code = 440 then ⟨{ s with ctDown := 0 }, true, false, false⟩
    else if code = 770 then
      ⟨{ s with remMonth := 0, remDay := 0, remHour := 0, remMin := 0 }, true, false, false⟩
    else if code = 777 then ⟨s, true, false, false⟩
    else if code ≤ 3 then ⟨{ s with beepMode := code }, false, false, false⟩
    else ⟨s, false, true, false⟩
  else if strLen = 5 then
    if buf = [6, 4, 7, 3, 8] then ⟨s, false, false, true⟩
    else ⟨s, false, true, false⟩
  else if strLen = 6 then
    let code := read2digs buf 0
    if code = 11 then
      let aHour := read2digs buf 2
      let aMin := read2digs buf 4
      if aHour ≤ 23 ∧ aMin ≤ 59 then
        ⟨{ s with alarmHour := aHour, alarmMinute := aMin, alarmOnOff := true },
          true, false, false⟩
      else ⟨s, false, true, false⟩
    else if code = 77 then
      let sMon := read2digs buf 2
      let sDay := read2digs buf 4
      if (sMon ≤ 12 ∧ (1 ≤ sDay ∧ sDay ≤ 31)) ∧ (sMon = 0 ∨ sDay ≤ daysInMonth sMon 2000) then
        let s1 := if s.remMonth ≠ sMon ∨ s.remDay ≠ sDay then
            (let s2 := { s with remMonth := sMon, remDay := sDay }
             if s2.remHour = 0 ∧ s2.remMin = 0 then { s2 with remHour := 9 } else s2)
          else s
        ⟨s1, true, false, false⟩
      else ⟨s, false, true, false⟩
    else if s.haveMusic ∧ buf.getD 0 0 = 8 ∧ buf.getD 1 0 = 8 ∧ buf.getD 2 0 = 8 then
      ⟨s, true, false, false⟩
    else ⟨s, false, true, false⟩
  else if strLen = 4 ∧ read2digs buf 0 = 44 then
    let mins := read2digs buf 2
    ⟨{ s with ctDown := if mins = 0 then 0 else mins * 60 * 1000 }, true, false, false⟩
  else if strLen = 10 then
    if read2digs buf 0 = 77 then
      let sMon := read2digs buf 2
      let sDay := read2digs buf 4
      let sHour := read2digs buf 6
      let sMin := read2digs buf 8
      if ((sMon ≤ 12 ∧ (1 ≤ sDay ∧ sDay ≤ 31)) ∧ sHour ≤ 23 ∧ sMin ≤ 59) ∧
          (sMon = 0 ∨ sDay ≤ daysInMonth sMon 2000) then
        ⟨{ s with remMonth := sMon, remDay := sDay, remHour := sHour, remMin := sMin },
          true, false, false⟩
      else ⟨s, false, true, false⟩
    else ⟨s, false, true, false⟩
  else dateTimeEntry buf s

/-- The audio indication chosen at the end of the commit processing
(`tc_keypad.cpp` lines 1119-1129): `enter.mp3` on a valid entry,
`baddate.mp3` on an invalid one, nothing otherwise. -/
inductive EntrySound where
  | noSound
  | enterSound
  | baddateSound
deriving DecidableEq, Repr

/-- `if(validEntry) play enter.mp3 else if(invalidEntry) play baddate.mp3`. -/
def commitSound (o : EntryOutcome) : EntrySound :=
  if o.validEntry then .enterSound else if o.invalidEntry then .baddateSound else .noSound

/-- The whole commit step seen from the buffer: process the entry, then
"Prepare for next input" (`dateIndex = 0; dateBuffer[0] = '\0';`,
lines 1131-1133).  The restart path powers the device off instead and is
represented by `none`. -/
def keypadCommit (buf : List ℕ) (s : EntryState) : Option ((List ℕ × ℕ) × EntryOutcome) :=
  let o := processEntry buf s
  if o.restart then none else some (([], 0), o)

/-! ### Time travel, rollover and the auto-rotation pause (`tc_time.cpp`) -/

/-- The fields of the `DateTime` handed back by the hardware clock. -/
structure RTCTime where
  year : ℕ
  month : ℕ
  day : ℕ
  hour : ℕ
  minute : ℕ
deriving DecidableEq, Repr

/-- The state touched by `timeTravel` / the rollover check: the three clock
values, the last hardware-clock reading, and the virtual offset
`timeDifference` with its direction flag `timeDiffUp`. -/
structure TCState where
  present : ClockValue
  dest : ClockValue
  departed : ClockValue
  rtc : RTCTime
  timeDifference : ℕ
  timeDiffUp : Bool
deriving DecidableEq, Repr

/-- The `rtcTime` computation of `timeTravel` (`tc_time.cpp` lines 947-951):
the hardware clock's reading with the present year offset subtracted,
converted to minutes. -/
def rtcEffMins (s : TCState) : ℕ :=
  dateToMins ((s.rtc.year : ℤ) - s.present.yearOffset).toNat
    s.rtc.month s.rtc.day s.rtc.hour s.rtc.minute

/-- The `newTime` computation of `timeTravel` (`tc_time.cpp` lines 953-958):
the destination clock's date converted to minutes. -/
def destMins (s : TCState) : ℕ :=
  dateToMins s.dest.year.toNat s.dest.month s.dest.day s.dest.hour s.dest.minute

/-- `timeTravel(false)` of `tc_time.cpp` (lines 922-971), the short-form
commit: copy the present clock's effective date into the departed clock
(offset reset there), then store the absolute minute difference between the
effective hardware time and the destination time together with its
direction.  Audio, display and persistence side effects go to out-of-scope
collaborators. -/
def timeTravelShort (s : TCState) : TCState :=
  let dep := setYear s.departed (s.present.year - s.present.yearOffset)
  let dep := setMonth dep s.present.month
  let dep := setDay dep s.present.day
  let dep := setHour dep s.present.hour
  let dep := setMinute dep s.present.minute
  let dep := setYearOffset dep 0
  let rtcTime := rtcEffMins s
  let newTime := destMins s
  if rtcTime < newTime then
    { s with departed := dep, timeDifference := newTime - rtcTime, timeDiffUp := true }
  else
    { s with departed := dep, timeDifference := rtcTime - newTime, timeDiffUp := false }

/-- The rollover handler of `time_loop` (`tc_time.cpp` lines 652-690): once
the effective year passes 9999, remap `timeDifference` (mirroring it in the
full 1-to-9999 minute range and flipping the direction) when an offset is
active, then rewrite the year offset to 2016 and the hardware-clock year
to 2017. -/
def rolloverCheck (s : TCState) : TCState :=
  if (s.rtc.year : ℤ) - s.present.yearOffset > 9999 then
    let s1 := if s.timeDifference ≠ 0 then
        { s with timeDifference := 5255474400 - s.timeDifference, timeDiffUp := !s.timeDiffUp }
      else s
    { s1 with present := setYearOffset s1.present 2016, rtc := { s1.rtc with year := 2017 } }
  else s

/-- Modelled from the spec: the displayed present time is the true (linear)
present time shifted by the virtual offset in the direction of
`timeDiffUp`, wrapped in the year range 1-9999 (the rollover maps year 9999
back to year 1), i.e. modulo the 5255474400 minutes that range spans. -/
def displayedMins (trueMins tD : ℕ) (up : Bool) : ℤ :=
  ((trueMins : ℤ) + (if up then (tD : ℤ) else -(tD : ℤ))) % 5255474400

/-- The state of the auto-rotation scheduler: the configured interval value
`autoTimeIntervals[autoInterval]` (the table itself lives outside the
analysed files), the pause flag and its window. -/
structure AutoState where
  intervalVal : ℕ
  autoPaused : Bool
  pauseNow : ℕ
  pauseDelay : ℕ
deriving DecidableEq, Repr

/-- `pauseAuto` of `tc_time.cpp` (lines 1019-1029): when auto-rotation is
configured, (re)start a 30-minute pause at the current `millis()`. -/
def pauseAuto (s : AutoState) (now : ℕ) : AutoState :=
  if s.intervalVal ≠ 0 then
    { s with pauseDelay := 30 * 60 * 1000, autoPaused := true, pauseNow := now }
  else s

/-- The guard of the auto-rotation advancement in `time_loop`
(`tc_time.cpp` lines 757-760): second 59, not inside an unexpired pause,
a nonzero interval, and the upcoming minute on the interval boundary. -/
def autoAdvanceCheck (s : AutoState) (dtSec dtMin now : ℕ) : Bool :=
  let minNext := if dtMin = 59 then 0 else dtMin + 1
  decide (dtSec = 59) &&
    (!s.autoPaused || decide (usub32 now s.pauseNow ≥ s.pauseDelay)) &&
    decide (s.intervalVal ≠ 0) &&
    decide (minNext % s.intervalVal = 0)

/-- A calendar tuple in the supported range of the codec: year 1-9999,
month 1-12, day within the month's length as the code computes it
(`daysInMonth`), hour 0-23, minute 0-59. -/
def validTuple (y m d h mi : ℕ) : Prop :=
  1 ≤ y ∧ y ≤ 9999 ∧ 1 ≤ m ∧ m ≤ 12 ∧ 1 ≤ d ∧ d ≤ daysInMonth m y ∧ h ≤ 23 ∧ mi ≤ 59

instance (y m d h mi : ℕ) : Decidable (validTuple y m d h mi) := by
  unfold validTuple; infer_instance

end TC

/-! ## Properties -/

namespace TC

/-- Because of the precedence defect the source's leap-year test is
`(year & 0) != 0`: `isLeapYear` returns `false` for every year. -/
theorem isLeapYear_eq_false (y : ℕ) : isLeapYear y = false := by
  simp [isLeapYear]

/-- With the defective leap-year predicate, `daysInMonth` ignores the year
entirely. -/
theorem daysInMonth_eq (m y : ℕ) : daysInMonth m y = monthDays (m - 1) := by
  simp [daysInMonth, isLeapYear_eq_false]

theorem yearHoursSum_eq (c d : ℕ) : yearHoursSum c d = (c - d) * 8760 := by
  induction c using Nat.strong_induction_on with
  | _ c ih =>
    rw [yearHoursSum]
    simp only [isLeapYear_eq_false, Bool.false_eq_true, if_false]
    split
    · rw [ih (c - 1) (by omega)]
      have h1 : c - d = (c - 1 - d) + 1 := by omega
      rw [h1]; ring
    · omega

theorem hours1kYears_eq (q : ℕ) (hq : 1 ≤ q) (hq9 : q ≤ 9) :
    hours1kYears q = (q * 1000 - 1) * 8760 := by
  interval_cases q <;> rfl

/-- Closed form of `dateToMins` on the supported year range: with every year
counted at 365 days (the leap rule being disabled by the defect), the result
is the obvious linear combination of the inputs. -/
theorem dateToMins_closed (year month day hour minute : ℕ)
    (hy : 1 ≤ year) (hy9 : year ≤ 9999) :
    dateToMins year month day hour minute =
      (year - 1) * 525600 + monYdayN (month - 1) * 1440 +
        (day - 1) * 1440 + hour * 60 + minute := by
  unfold dateToMins
  simp only [isLeapYear_eq_false, Bool.false_eq_true, if_false, yearHoursSum_eq]
  have hq9 : year / 1000 ≤ 9 := by omega
  by_cases h0 : year / 1000 = 0
  · simp only [h0]
    rw [show hours1kYears 0 = 0 from rfl]
    rw [if_neg (by omega : ¬ (0 : ℕ) ≠ 0)]
    simp only [monYday, if_neg (by omega : ¬ (0 : ℕ) = 1)]
    omega
  · have hq1 : 1 ≤ year / 1000 := by omega
    rw [hours1kYears_eq _ hq1 hq9]
    have hne : (year / 1000 * 1000 - 1) * 8760 ≠ 0 := by
      have h2 : 1 ≤ year / 1000 * 1000 - 1 := by
        have h3 := Nat.mul_le_mul_right 1000 hq1
        omega
      positivity
    simp only [if_pos hne]
    simp only [monYday, if_neg (by omega : ¬ (0 : ℕ) = 1)]
    have hle : year / 1000 * 1000 ≤ year := Nat.div_mul_le_self year 1000
    have h1 : 1 ≤ year / 1000 * 1000 := by omega
    have key : (year / 1000 * 1000 - 1) * 8760 + (year - year / 1000 * 1000) * 8760
        = (year - 1) * 8760 := by
      rw [← Nat.add_mul]
      congr 1
      omega
    ring_nf
    ring_nf at key
    omega

theorem yearLoop_eq (c year t : ℕ) :
    yearLoop c year t = (c + t / 525600 + 1, year + t / 525600, t % 525600) := by
  induction t using Nat.strong_induction_on generalizing c year with
  | _ t ih =>
    rw [yearLoop]
    simp only [isLeapYear_eq_false, Bool.false_eq_true, if_false]
    by_cases h : t < 8760 * 60
    · simp only [dif_pos h]
      have h1 : t / 525600 = 0 := Nat.div_eq_of_lt (by omega)
      have h2 : t % 525600 = t := Nat.mod_eq_of_lt (by omega)
      simp [h1, h2]
    · simp only [dif_neg h]
      rw [ih (t - 8760 * 60) (by omega)]
      refine Prod.ext ?_ (Prod.ext ?_ ?_) <;> simp <;> omega

/-- The descending block scan returns the largest index at or below its
starting point whose table entry the input exceeds, and `none` exactly on
input 0 (all indices failing means `total64 > 0` already failed at index 0). -/
theorem blockScan_correct (d n : ℕ) :
    (n = 0 ∧ blockScan n d = none) ∨
    (∃ k, k ≤ d ∧ n > mins1kYears k ∧ (∀ j, k < j → j ≤ d → n ≤ mins1kYears j) ∧
      blockScan n d = some k) := by
  induction d with
  | zero =>
    by_cases h : n > mins1kYears 0
    · right
      exact ⟨0, le_refl 0, h, fun j hj1 hj2 => absurd (lt_of_lt_of_le hj1 hj2) (by omega),
        by rw [blockScan, if_pos h]⟩
    · left
      have h0 : mins1kYears 0 = 0 := rfl
      exact ⟨by omega, by rw [blockScan, if_neg h]⟩
  | succ d ih =>
    by_cases h : n > mins1kYears (d + 1)
    · right
      exact ⟨d + 1, le_refl _, h, fun j hj1 hj2 => by omega,
        by rw [blockScan, if_pos h]⟩
    · have hstep : blockScan n (d + 1) = blockScan n d := by rw [blockScan, if_neg h]
      rcases ih with ⟨h0, hsc⟩ | ⟨k, hk, hgt, hmax, hsc⟩
      · exact Or.inl ⟨h0, by rw [hstep, hsc]⟩
      · right
        refine ⟨k, by omega, hgt, fun j hj1 hj2 => ?_, by rw [hstep, hsc]⟩
        rcases Nat.lt_or_ge j (d + 1) with hj | hj
        · exact hmax j hj1 (by omega)
        · have hje : j = d + 1 := by omega
          rw [hje]; omega

/-- The block scan of `minsToDate` lands in a state `(year₀, t)` that still
represents the input (`total64 = (year₀ - 1)·525600 + t`) and whose
remainder survives the 32-bit truncation. -/
theorem blockPair_spec (n : ℕ) (hn : n < 5255474400) :
    1 ≤ (blockPair n).1 ∧ n = ((blockPair n).1 - 1) * 525600 + (blockPair n).2 ∧
      (blockPair n).2 < 2 ^ 32 := by
  unfold blockPair
  rcases blockScan_correct 9 n with ⟨h0, hsc⟩ | ⟨k, hk, hgt, hmax, hsc⟩
  · rw [hsc]; subst h0; exact ⟨le_refl 1, by norm_num, by norm_num⟩
  · rw [hsc]
    by_cases hk0 : k > 0
    · simp only [if_pos hk0]
      have htv : mins1kYears k = (k * 1000 - 1) * 525600 := by
        interval_cases k <;> norm_num [mins1kYears]
      have hup : n ≤ mins1kYears k + 525600000 := by
        rcases Nat.lt_or_ge k 9 with h9 | h9
        · have h1 := hmax (k + 1) (by omega) (by omega)
          have h2 : mins1kYears (k + 1) = mins1kYears k + 525600000 := by
            interval_cases k <;> norm_num [mins1kYears]
          omega
        · have hk9 : k = 9 := by omega
          subst hk9
          norm_num [mins1kYears] at htv ⊢
          omega
      refine ⟨by omega, ?_, by omega⟩
      have h1000 : 1 ≤ k * 1000 := by omega
      omega
    · simp only [if_neg hk0]
      have hk0e : k = 0 := by omega
      subst hk0e
      have h1 := hmax 1 (by omega) (by omega)
      have h2 : mins1kYears 1 = 525074400 := rfl
      exact ⟨le_refl 1, by omega, by omega⟩

/-- One pass of the ascending month scan, by descending induction from the
current index: starting at an index whose window has begun, it stops at the
index whose cumulative-minute window contains the remainder. -/
theorem monthScan_correct (fuel : ℕ) : ∀ c r, 12 - c = fuel → 1 ≤ c → c ≤ 12 →
    monYdayN (c - 1) * 1440 ≤ r → r < 525600 →
    c ≤ monthScan 0 r c ∧ monthScan 0 r c ≤ 12 ∧
      monYdayN (monthScan 0 r c - 1) * 1440 ≤ r ∧
      r < monYdayN (monthScan 0 r c) * 1440 := by
  induction fuel with
  | zero =>
    intro c r hf h1 h12 hprev hr
    have hc : c = 12 := by omega
    subst hc
    rw [monthScan, if_neg (by omega : ¬ (12 : ℕ) < 12)]
    refine ⟨le_refl 12, le_refl 12, hprev, ?_⟩
    show r < monYdayN 12 * 1440
    norm_num [monYdayN]
    omega
  | succ fuel ih =>
    intro c r hf h1 h12 hprev hr
    have hc : c < 12 := by omega
    rw [monthScan, if_pos hc]
    by_cases hbreak : r < monYday 0 c * (24 * 60)
    · rw [if_pos hbreak]
      simp only [monYday, if_neg (by omega : ¬ (0 : ℕ) = 1)] at hbreak
      exact ⟨le_refl c, by omega, hprev, by omega⟩
    · rw [if_neg hbreak]
      simp only [monYday, if_neg (by omega : ¬ (0 : ℕ) = 1)] at hbreak
      have hnext := ih (c + 1) r (by omega) (by omega) (by omega)
        (by simpa using hbreak) hr
      exact ⟨by omega, hnext.2.1, hnext.2.2.1, hnext.2.2.2⟩

/-- Characterization of the month scan of `minsToDate` (with the non-leap
row of `mon_yday`): it returns the month whose cumulative-minute window
contains the remainder. -/
theorem monthScan_spec (rem : ℕ) (h : rem < 525600) :
    1 ≤ monthScan 0 rem 1 ∧ monthScan 0 rem 1 ≤ 12 ∧
      monYdayN (monthScan 0 rem 1 - 1) * 1440 ≤ rem ∧
      rem < monYdayN (monthScan 0 rem 1) * 1440 := by
  have h0 : monYdayN (1 - 1) * 1440 ≤ rem := by norm_num [monYdayN]
  exact monthScan_correct 11 1 rem rfl (le_refl 1) (by omega) h0 h

theorem monYdayN_add (m : ℕ) (h1 : 1 ≤ m) (h2 : m ≤ 12) :
    monYdayN m = monYdayN (m - 1) + monthDays (m - 1) := by
  interval_cases m <;> decide

theorem monYdayN_mono (i j : ℕ) (hij : i ≤ j) (hj : j ≤ 12) :
    monYdayN i ≤ monYdayN j := by
  interval_cases j <;> interval_cases i <;> decide

/-- The month scan hits exactly the month whose window the remainder lies
in. -/
theorem monthScan_unique (r m : ℕ) (h1 : 1 ≤ m) (h2 : m ≤ 12)
    (hlo : monYdayN (m - 1) * 1440 ≤ r) (hhi : r < monYdayN m * 1440) :
    monthScan 0 r 1 = m := by
  have hr : r < 525600 := by
    have h3 : monYdayN m ≤ 365 := by interval_cases m <;> decide
    omega
  obtain ⟨hk1, hk2, hklo, hkhi⟩ := monthScan_spec r hr
  set k := monthScan 0 r 1 with hk
  rcases Nat.lt_trichotomy k m with hlt | heq | hgt
  · have h4 : monYdayN k ≤ monYdayN (m - 1) := monYdayN_mono _ _ (by omega) (by omega)
    omega
  · exact heq
  · have h4 : monYdayN m ≤ monYdayN (k - 1) := monYdayN_mono _ _ (by omega) (by omega)
    omega

/-- Evaluation of `minsToDate` on the supported range, with year, month and
the day/hour/minute remainders made explicit. -/
theorem minsToDate_eval (n : ℕ) (hnR : n < 5255474400) :
    minsToDate n = (n / 525600 + 1,
      monthScan 0 (n % 525600) 1,
      (n % 525600 - monYdayN (monthScan 0 (n % 525600) 1 - 1) * 1440) / 1440 + 1,
      ((n % 525600 - monYdayN (monthScan 0 (n % 525600) 1 - 1) * 1440) % 1440) / 60,
      ((n % 525600 - monYdayN (monthScan 0 (n % 525600) 1 - 1) * 1440) % 1440) % 60) := by
  obtain ⟨hb1, hb2, hb3⟩ := blockPair_spec n hnR
  simp only [minsToDate]
  rw [Nat.mod_eq_of_lt hb3, yearLoop_eq]
  simp only [isLeapYear_eq_false, Bool.false_eq_true, if_false, monYday,
    if_neg (by omega : ¬ (0 : ℕ) = 1)]
  have hyear : (blockPair n).1 + (blockPair n).2 / 525600 = n / 525600 + 1 := by
    omega
  have hrem : (blockPair n).2 % 525600 = n % 525600 := by
    omega
  rw [hyear, hrem]
  norm_num
  omega

/-- Forward round trip of the codec: `minsToDate` inverts `dateToMins` on
every valid calendar tuple. -/
theorem minsToDate_dateToMins (y m d h mi : ℕ) (hv : validTuple y m d h mi) :
    minsToDate (dateToMins y m d h mi) = (y, m, d, h, mi) := by
  obtain ⟨hy1, hy2, hm1, hm2, hd1, hd2, hh, hmi⟩ := hv
  rw [daysInMonth_eq] at hd2
  have hmadd : monYdayN m = monYdayN (m - 1) + monthDays (m - 1) := monYdayN_add m hm1 hm2
  have h365 : monYdayN m ≤ 365 := by interval_cases m <;> decide
  have hrlt : monYdayN (m - 1) * 1440 + (d - 1) * 1440 + h * 60 + mi < 525600 := by
    omega
  have hn : dateToMins y m d h mi =
      (y - 1) * 525600 + (monYdayN (m - 1) * 1440 + (d - 1) * 1440 + h * 60 + mi) := by
    rw [dateToMins_closed y m d h mi hy1 hy2]; omega
  have hnR : dateToMins y m d h mi < 5255474400 := by
    rw [hn]
    have hyb : y - 1 ≤ 9998 := by omega
    have := Nat.mul_le_mul_right 525600 hyb
    omega
  rw [minsToDate_eval _ hnR]
  have hdiv : dateToMins y m d h mi / 525600 = y - 1 := by omega
  have hmod : dateToMins y m d h mi % 525600 =
      monYdayN (m - 1) * 1440 + (d - 1) * 1440 + h * 60 + mi := by omega
  rw [hdiv, hmod]
  have hms : monthScan 0 (monYdayN (m - 1) * 1440 + (d - 1) * 1440 + h * 60 + mi) 1 = m := by
    apply monthScan_unique _ m hm1 hm2
    · omega
    · omega
  rw [hms]
  refine Prod.ext (by omega) (Prod.ext rfl (Prod.ext (by simp; omega)
    (Prod.ext (by simp; omega) (by simp; omega))))

/-- Backward round trip of the codec: every minute count below the span of
years 1-9999 comes from exactly the valid tuple `minsToDate` assigns it. -/
theorem dateToMins_minsToDate (n : ℕ) (hnR : n < 5255474400) :
    validTuple (minsToDate n).1 (minsToDate n).2.1 (minsToDate n).2.2.1
      (minsToDate n).2.2.2.1 (minsToDate n).2.2.2.2 ∧
    dateToMins (minsToDate n).1 (minsToDate n).2.1 (minsToDate n).2.2.1
      (minsToDate n).2.2.2.1 (minsToDate n).2.2.2.2 = n := by
  have hr : n % 525600 < 525600 := Nat.mod_lt _ (by omega)
  obtain ⟨hs1, hs2, hslo, hshi⟩ := monthScan_spec (n % 525600) hr
  rw [minsToDate_eval n hnR]
  dsimp only
  set m := monthScan 0 (n % 525600) 1 with hm
  set r2 := n % 525600 - monYdayN (m - 1) * 1440 with hr2
  have hmadd : monYdayN m = monYdayN (m - 1) + monthDays (m - 1) := monYdayN_add m hs1 hs2
  have hy2 : n / 525600 + 1 ≤ 9999 := by omega
  have hvalid : validTuple (n / 525600 + 1) m (r2 / 1440 + 1) ((r2 % 1440) / 60)
      ((r2 % 1440) % 60) := by
    refine ⟨by omega, hy2, hs1, hs2, by omega, ?_, by omega, by omega⟩
    rw [daysInMonth_eq]
    omega
  refine ⟨hvalid, ?_⟩
  rw [dateToMins_closed _ _ _ _ _ (by omega) hy2]
  omega

/-- On valid tuples `dateToMins` stays below the total minute span of the
years 1-9999. -/
theorem dateToMins_lt (y m d h mi : ℕ) (hv : validTuple y m d h mi) :
    dateToMins y m d h mi < 5255474400 := by
  obtain ⟨hy1, hy2, hm1, hm2, hd1, hd2, hh, hmi⟩ := hv
  rw [daysInMonth_eq] at hd2
  have hmadd : monYdayN m = monYdayN (m - 1) + monthDays (m - 1) := monYdayN_add m hm1 hm2
  have h365 : monYdayN m ≤ 365 := by interval_cases m <;> decide
  rw [dateToMins_closed y m d h mi hy1 hy2]
  have hyb : y - 1 ≤ 9998 := by omega
  have hmul := Nat.mul_le_mul_right 525600 hyb
  omega

/-! ## The claims -/

/-- C1: on the supported range (year 1-9999, month 1-12, day within the
month's length as the code computes it, hour 0-23, minute 0-59),
`minsToDate` inverts `dateToMins` exactly, and the map is a strict
bijection between valid tuples and the minute counts `[0, 5255474400)`:
every valid tuple lands in that interval, and every count in the interval
is reached from exactly the (valid) tuple `minsToDate` decodes it to. -/
theorem c1_codec_roundtrip_bijection :
    (∀ y m d h mi, validTuple y m d h mi →
      minsToDate (dateToMins y m d h mi) = (y, m, d, h, mi) ∧
      dateToMins y m d h mi < 5255474400) ∧
    (∀ n, n < 5255474400 →
      validTuple (minsToDate n).1 (minsToDate n).2.1 (minsToDate n).2.2.1
        (minsToDate n).2.2.2.1 (minsToDate n).2.2.2.2 ∧
      dateToMins (minsToDate n).1 (minsToDate n).2.1 (minsToDate n).2.2.1
        (minsToDate n).2.2.2.1 (minsToDate n).2.2.2.2 = n) :=
  ⟨fun y m d h mi hv => ⟨minsToDate_dateToMins y m d h mi hv, dateToMins_lt y m d h mi hv⟩,
   dateToMins_minsToDate⟩

/-- Witness for C1 at October 26, 1985, 1:21. -/
theorem c1_codec_roundtrip_bijection_witness :
    validTuple 1985 10 26 1 21 ∧
      minsToDate (dateToMins 1985 10 26 1 21) = (1985, 10, 26, 1, 21) :=
  ⟨by decide, (c1_codec_roundtrip_bijection.1 1985 10 26 1 21 (by decide)).1⟩

/-- C2: the source's `isLeapYear` contradicts the Gregorian rule it is
documented to implement: the precedence defect makes it return `false` for
every year, in particular for the leap years 2000 and 2004, while the
Gregorian rule (stated as `gregorianLeapYear`) gives the claimed values
1900 → false, 2000 → true, 2004 → true, 2100 → false, 2023 → false. -/
theorem c2_isLeapYear_defect :
    (∀ y, isLeapYear y = false) ∧
    isLeapYear 2000 = false ∧ isLeapYear 2004 = false ∧
    gregorianLeapYear 1900 = false ∧ gregorianLeapYear 2000 = true ∧
    gregorianLeapYear 2004 = true ∧ gregorianLeapYear 2100 = false ∧
    gregorianLeapYear 2023 = false :=
  ⟨isLeapYear_eq_false, by decide, by decide, by decide, by decide, by decide,
   by decide, by decide⟩

/-- C10: both codec directions are total on their whole domains — the
embedded loops (the descending block scan, the year loop consuming at least
525600 minutes per iteration, the month scan bounded by 12, and the
year-summing loop of `dateToMins`) all terminate, so `minsToDate` returns a
tuple for every 64-bit count and `dateToMins` a value for every input; the
year loop's strict decrease by 525600 per iteration is made explicit. -/
theorem c10_codec_total :
    (∀ n : ℕ, ∃ y m d h mi : ℕ, minsToDate n = (y, m, d, h, mi)) ∧
    (∀ y m d h mi : ℕ, ∃ v : ℕ, dateToMins y m d h mi = v) ∧
    (∀ c y t : ℕ, yearLoop c y (t + 525600) = yearLoop (c + 1) (y + 1) t) := by
  refine ⟨fun n => ⟨(minsToDate n).1, (minsToDate n).2.1, (minsToDate n).2.2.1,
      (minsToDate n).2.2.2.1, (minsToDate n).2.2.2.2, rfl⟩,
    fun y m d h mi => ⟨_, rfl⟩, fun c y t => ?_⟩
  rw [yearLoop]
  simp only [isLeapYear_eq_false, Bool.false_eq_true, if_false]
  rw [dif_neg (by omega)]
  have harg : t + 525600 - 8760 * 60 = t := by omega
  rw [harg]

/-- C3: after the short-form commit, the departed clock carries the present
clock's effective date (present year minus its year offset, offset zeroed
there), the stored `timeDifference` is the absolute minute difference
between the hardware clock's effective time and the destination time, and
applying the offset in the direction of `timeDiffUp` to the effective
hardware time lands exactly on the destination time — the present display
equals the destination immediately after the commit. -/
theorem c3_timeTravel_short_commit (s : TCState) (hwf : s.present.wf) :
    ((timeTravelShort s).departed.year = s.present.year - s.present.yearOffset ∧
     (timeTravelShort s).departed.month = s.present.month ∧
     (timeTravelShort s).departed.day = s.present.day ∧
     (timeTravelShort s).departed.hour = s.present.hour ∧
     (timeTravelShort s).departed.minute = s.present.minute ∧
     (timeTravelShort s).departed.yearOffset = 0) ∧
    (timeTravelShort s).timeDifference =
      max (rtcEffMins s) (destMins s) - min (rtcEffMins s) (destMins s) ∧
    (if (timeTravelShort s).timeDiffUp then
        rtcEffMins s + (timeTravelShort s).timeDifference
      else rtcEffMins s - (timeTravelShort s).timeDifference) = destMins s := by
  obtain ⟨hm1, hm2, hd1, hd2, hh, hmi⟩ := hwf
  have hdep : setYearOffset (setMinute (setHour (setDay (setMonth
      (setYear s.departed (s.present.year - s.present.yearOffset)) s.present.month)
      s.present.day) s.present.hour) s.present.minute) 0 =
      ⟨s.present.year - s.present.yearOffset, s.present.month, s.present.day,
        s.present.hour, s.present.minute, 0⟩ := by
    simp only [setYear, setMonth, setDay, setHour, setMinute, setYearOffset]
    simp only [if_neg (by omega : ¬ s.present.month < 1),
      if_neg (by omega : ¬ s.present.month > 12)]
    simp only [if_neg (by omega : ¬ s.present.day < 1)]
    rw [if_neg (by exact not_lt_of_le hd2 : ¬ s.present.day >
      daysInMonth s.present.month ((s.present.year - s.present.yearOffset).toNat))]
    rw [if_pos hh, if_pos hmi]
  simp only [timeTravelShort, hdep]
  by_cases hlt : rtcEffMins s < destMins s
  · simp only [if_pos hlt]
    norm_num
    omega
  · simp only [if_neg hlt]
    norm_num
    omega

/-- Witness for C3 at a concrete state (present effective year 1). -/
theorem c3_timeTravel_short_commit_witness :
    (timeTravelShort ⟨⟨2017, 1, 1, 0, 0, 2016⟩, ⟨1985, 10, 26, 1, 21, 0⟩,
      ⟨1, 1, 1, 0, 0, 0⟩, ⟨2017, 1, 1, 0, 0⟩, 0, false⟩).departed.yearOffset = 0 :=
  ((c3_timeTravel_short_commit _ (by decide)).1).2.2.2.2.2

/-- C6: once the present effective year passes 9999 (the handler runs every
second, so it fires the moment the year becomes 10000), the rollover
handler rewrites the hardware-clock year to 2017 and the year offset
to 2016 (leaving the other hardware fields alone), replaces an active
`timeDifference` by `5255474400 - timeDifference` while flipping
`timeDiffUp`, and the displayed present time is unchanged: shifting the
new effective time (the same date re-based to year 1) by the remapped
offset gives the same display as shifting the pre-rollover effective time —
which sits exactly 5255474400 minutes later — by the old offset. -/
theorem c6_rollover_remap (s : TCState)
    (heff : (s.rtc.year : ℤ) - s.present.yearOffset = 10000)
    (htD : s.timeDifference < 5255474400) :
    (rolloverCheck s).rtc.year = 2017 ∧
    (rolloverCheck s).present.yearOffset = 2016 ∧
    ((rolloverCheck s).rtc.month = s.rtc.month ∧ (rolloverCheck s).rtc.day = s.rtc.day ∧
     (rolloverCheck s).rtc.hour = s.rtc.hour ∧ (rolloverCheck s).rtc.minute = s.rtc.minute) ∧
    (s.timeDifference ≠ 0 →
      (rolloverCheck s).timeDifference = 5255474400 - s.timeDifference ∧
      (rolloverCheck s).timeDiffUp = !s.timeDiffUp) ∧
    (s.timeDifference = 0 → (rolloverCheck s).timeDifference = 0) ∧
    displayedMins (rtcEffMins (rolloverCheck s)) (rolloverCheck s).timeDifference
        (rolloverCheck s).timeDiffUp =
      displayedMins (5255474400 + rtcEffMins (rolloverCheck s))
        s.timeDifference s.timeDiffUp := by
  have hgt : (s.rtc.year : ℤ) - s.present.yearOffset > 9999 := by omega
  simp only [rolloverCheck, if_pos hgt]
  by_cases h0 : s.timeDifference ≠ 0
  · simp only [if_pos h0]
    refine ⟨by trivial, by trivial, ⟨by trivial, by trivial, by trivial, by trivial⟩,
      fun _ => ⟨by trivial, by trivial⟩, fun h => absurd h h0, ?_⟩
    cases hup : s.timeDiffUp <;>
      simp only [displayedMins, hup, Bool.not_false, Bool.not_true, if_pos, if_neg,
        Bool.false_eq_true, if_false, if_true] <;>
      push_cast [Nat.le_of_lt htD] <;>
      omega
  · simp only [if_neg h0]
    push_neg at h0
    refine ⟨by trivial, by trivial, ⟨by trivial, by trivial, by trivial, by trivial⟩,
      fun h => absurd h0 h, fun _ => h0, ?_⟩
    rw [h0]
    cases hup : s.timeDiffUp <;>
      simp only [displayedMins, hup, Bool.false_eq_true, if_false, if_true] <;>
      push_cast <;>
      omega

/-- Witness for C6 at a concrete state (hardware year 2050, offset -7950,
virtual offset 5 minutes up). -/
theorem c6_rollover_remap_witness :
    (rolloverCheck ⟨⟨1, 1, 1, 0, 0, -7950⟩, ⟨1985, 10, 26, 1, 21, 0⟩,
      ⟨1, 1, 1, 0, 0, 0⟩, ⟨2050, 1, 1, 0, 0⟩, 5, true⟩).rtc.year = 2017 :=
  (c6_rollover_remap _ (by decide) (by decide)).1

/-- `millis() - t0` on 32-bit unsigned values is plain subtraction while no
wrap-around has occurred. -/
theorem usub32_eq (a b : ℕ) (hba : b ≤ a) (hlt : a - b < 2 ^ 32) :
    usub32 a b = a - b := by
  unfold usub32
  omega

/-- C7: with a nonzero auto-rotation interval configured, `pauseAuto` at
time `P` arms a 30-minute pause (`pauseDelay = 1800000 ms`) starting at
`P`; afterwards every advancement check is suppressed while
`now < P + 30 min`, and a check can only pass once `now ≥ P + pauseDelay`
(stated within one 32-bit `millis()` epoch). -/
theorem c7_pauseAuto_suppresses (s : AutoState) (P : ℕ) (hint : s.intervalVal ≠ 0) :
    (pauseAuto s P).autoPaused = true ∧
    (pauseAuto s P).pauseDelay = 30 * 60 * 1000 ∧
    (pauseAuto s P).pauseNow = P ∧
    (∀ now dtSec dtMin, P ≤ now → now - P < 2 ^ 32 →
      (now < P + 30 * 60 * 1000 →
        autoAdvanceCheck (pauseAuto s P) dtSec dtMin now = false) ∧
      (autoAdvanceCheck (pauseAuto s P) dtSec dtMin now = true →
        P + 30 * 60 * 1000 ≤ now)) := by
  have hp : pauseAuto s P =
      { s with pauseDelay := 30 * 60 * 1000, autoPaused := true, pauseNow := P } := by
    simp [pauseAuto, hint]
  refine ⟨by rw [hp], by rw [hp], by rw [hp], ?_⟩
  intro now dtSec dtMin hPn hwrap
  have hu : usub32 now P = now - P := usub32_eq now P hPn hwrap
  constructor
  · intro hlt
    simp only [autoAdvanceCheck, hp, hu]
    have hnot : ¬ (now - P ≥ 30 * 60 * 1000) := by omega
    simp [hnot]
  · intro htrue
    by_contra hlt
    simp only [autoAdvanceCheck, hp, hu] at htrue
    simp [show ¬ (now - P ≥ 30 * 60 * 1000) by omega] at htrue

/-- Witness for C7: a check 100 ms into the pause is suppressed. -/
theorem c7_pauseAuto_suppresses_witness :
    autoAdvanceCheck (pauseAuto ⟨5, false, 0, 1800000⟩ 100) 59 4 200 = false :=
  ((c7_pauseAuto_suppresses ⟨5, false, 0, 1800000⟩ 100 (by decide)).2.2.2
    200 59 4 (by decide) (by decide)).1 (by decide)

/-- C4 counterexample: committing the 4-digit entry "9960" (hour 99,
minute 60) is NOT classified invalid by the interpreter — `keypad_loop`
reaches the date/time branch with `special = 0`, sets `validEntry` and
plays the confirmation sound (`enter.mp3`), deferring hour/minute range
checking to the destination clock's setters. -/
theorem c4_entry_9960_classified_valid :
    (processEntry [9, 9, 6, 0]
        ⟨⟨1985, 10, 26, 1, 21, 0⟩, 0, 0, false, 0, 0, 0, 0, 0, 0,
          false, false, false, false, false, false, false⟩).validEntry = true ∧
    (processEntry [9, 9, 6, 0]
        ⟨⟨1985, 10, 26, 1, 21, 0⟩, 0, 0, false, 0, 0, 0, 0, 0, 0,
          false, false, false, false, false, false, false⟩).invalidEntry = false ∧
    commitSound (processEntry [9, 9, 6, 0]
        ⟨⟨1985, 10, 26, 1, 21, 0⟩, 0, 0, false, 0, 0, 0, 0, 0, 0,
          false, false, false, false, false, false, false⟩) = EntrySound.enterSound := by
  decide

/-- C4 (amended): entries whose field validation happens in the interpreter
— such as a 6-digit alarm entry with hour > 23 or minute > 59 — are
classified invalid, play the error indication, leave the state unmodified
and reset the buffer; a 4-digit time entry such as "9960" is instead
classified valid and plays the confirmation indication, the interpreter
deferring hour/minute validation to the destination clock's setters, which
reject the out-of-range values and leave the clock unchanged; the buffer is
reset either way. -/
theorem c4_amended_field_validation (st : EntryState) (buf : List ℕ)
    (h6 : buf.length = 6) (h11 : read2digs buf 0 = 11)
    (hbad : ¬(read2digs buf 2 ≤ 23 ∧ read2digs buf 4 ≤ 59)) :
    (processEntry buf st = ⟨st, false, true, false⟩ ∧
     commitSound (processEntry buf st) = EntrySound.baddateSound ∧
     keypadCommit buf st = some (([], 0), ⟨st, false, true, false⟩)) ∧
    (∀ st2 : EntryState,
      (processEntry [9, 9, 6, 0] st2).validEntry = true ∧
      (processEntry [9, 9, 6, 0] st2).invalidEntry = false ∧
      commitSound (processEntry [9, 9, 6, 0] st2) = EntrySound.enterSound ∧
      (processEntry [9, 9, 6, 0] st2).st.dest = st2.dest ∧
      keypadCommit [9, 9, 6, 0] st2 = some (([], 0), processEntry [9, 9, 6, 0] st2)) := by
  have hmain : processEntry buf st = ⟨st, false, true, false⟩ := by
    simp only [processEntry, h6, h11]
    norm_num
    omega
  refine ⟨⟨hmain, by rw [hmain]; rfl, by simp [keypadCommit, hmain]⟩, ?_⟩
  intro st2
  simp [processEntry, dateTimeEntry, writeDest, read2digs, setHour, setMinute,
    commitSound, keypadCommit]

/-- Witness for C4 (amended) at the concrete entry "119960". -/
theorem c4_amended_field_validation_witness :
    processEntry [1, 1, 9, 9, 6, 0]
        ⟨⟨1985, 10, 26, 1, 21, 0⟩, 0, 0, false, 0, 0, 0, 0, 0, 0,
          false, false, false, false, false, false, false⟩ =
      ⟨⟨⟨1985, 10, 26, 1, 21, 0⟩, 0, 0, false, 0, 0, 0, 0, 0, 0,
          false, false, false, false, false, false, false⟩, false, true, false⟩ :=
  ((c4_amended_field_validation _ [1, 1, 9, 9, 6, 0] (by decide) (by decide)
    (by decide)).1).1

/-- C5: committing "02302000" (month 2, day 30, year 2000) clamps the month
into range and the day to `daysInMonth(2, 2000)` — but the defective leap
rule makes that 28, not the 29 the Gregorian rule (and the claim) require
for the leap year 2000. -/
theorem c5_feb30_leap_clamps_to_28 (st : EntryState) :
    ((processEntry [0, 2, 3, 0, 2, 0, 0, 0] st).st.dest.month = 2 ∧
     (processEntry [0, 2, 3, 0, 2, 0, 0, 0] st).st.dest.day = 28 ∧
     (processEntry [0, 2, 3, 0, 2, 0, 0, 0] st).st.dest.year = 2000 ∧
     (processEntry [0, 2, 3, 0, 2, 0, 0, 0] st).validEntry = true) ∧
    daysInMonth 2 2000 = 28 ∧ gregorianLeapYear 2000 = true := by
  refine ⟨?_, by decide, by decide⟩
  simp [processEntry, dateTimeEntry, writeDest, read2digs, setYear, setMonth, setDay,
    setHour, setMinute, getHrs1KYrs, hours1kYears, daysInMonth, isLeapYear, monthDays]

/-- C8: committing the 8-digit date-only entry "12251985" writes month 12,
day 25 and year 1985 into the destination clock and touches nothing else of
it — in particular the hour and minute setters are never invoked, so those
fields (and the year offset) keep their previous values. -/
theorem c8_date_only_12251985 (st : EntryState) :
    (processEntry [1, 2, 2, 5, 1, 9, 8, 5] st).st.dest.month = 12 ∧
    (processEntry [1, 2, 2, 5, 1, 9, 8, 5] st).st.dest.day = 25 ∧
    (processEntry [1, 2, 2, 5, 1, 9, 8, 5] st).st.dest.year = 1985 ∧
    (processEntry [1, 2, 2, 5, 1, 9, 8, 5] st).st.dest.hour = st.dest.hour ∧
    (processEntry [1, 2, 2, 5, 1, 9, 8, 5] st).st.dest.minute = st.dest.minute ∧
    (processEntry [1, 2, 2, 5, 1, 9, 8, 5] st).st.dest.yearOffset = st.dest.yearOffset ∧
    (processEntry [1, 2, 2, 5, 1, 9, 8, 5] st).validEntry = true := by
  simp [processEntry, dateTimeEntry, writeDest, read2digs, setYear, setMonth, setDay,
    setHour, setMinute, getHrs1KYrs, hours1kYears, daysInMonth, isLeapYear, monthDays]

/-- C9: the pending-entry buffer never exceeds `DATELEN_MAX` = 12
characters and its index invariant (the NUL staying inside the backing
array) is preserved by every recorded key; the buffer is cleared after
2 minutes without a key press, and at the end of every commit processing
(the reserved restart code reboots the device instead of returning). -/
theorem c9_buffer_bounded_and_cleared :
    DateBuf.wf ⟨[], 0, 0⟩ ∧
    (∀ b key now, DateBuf.wf b →
      DateBuf.wf (recordKey b key now) ∧ (recordKey b key now).buf.length ≤ DATELEN_MAX) ∧
    (∀ b now, usub32 now b.lastKeyPressed ≥ 2 * 60 * 1000 →
      (idleClear b now).buf = [] ∧ (idleClear b now).idx = 0) ∧
    (∀ buf st r, keypadCommit buf st = some r → r.1 = ([], 0)) := by
  refine ⟨by decide, ?_, ?_, ?_⟩
  · intro b key now hwf
    obtain ⟨hidx, hlen⟩ := hwf
    unfold DATELEN_MAX at hlen hidx
    unfold recordKey DateBuf.wf DATELEN_MAX
    simp only [List.length_append, List.length_take, List.length_cons, List.length_nil]
    constructor
    · split <;> omega
    · omega
  · intro b now h
    unfold idleClear
    rw [if_pos h]
    exact ⟨rfl, rfl⟩
  · intro buf st r h
    simp only [keypadCommit] at h
    by_cases hr : (processEntry buf st).restart
    · rw [if_pos hr] at h
      exact absurd h (by simp)
    · rw [if_neg hr] at h
      injection h with h2
      rw [← h2]

/-- Witness for C9: recording a key on a well-formed two-character buffer. -/
theorem c9_buffer_bounded_and_cleared_witness :
    DateBuf.wf (recordKey ⟨[1, 2], 2, 0⟩ 3 5) :=
  ((c9_buffer_bounded_and_cleared.2.1) ⟨[1, 2], 2, 0⟩ 3 5 (by decide)).1

end TC
